import Mathlib

/-!
Verification development for the online-signature-verification core
(`feature_extractor.py`, `template_generator.py`, `matcher.py`).

The numeric code operates on Python floats and numpy arrays; we embed it
over an arbitrary linear ordered field `α`, passing the real math-library
functions (`math.sqrt` inside `np.std`, `math.hypot`, `math.atan2`, and the
constant `np.pi`) as explicit parameters so that every definition stays
computable and can be evaluated on rational inputs.  Fallible numpy
operations (ragged array construction, `np.histogram2d` on sequences of
unequal length, broadcasting failures in elementwise arithmetic) are
modelled with `Option`: `none` is a raised exception.
-/

set_option maxHeartbeats 1000000

namespace SigVerify

variable {α : Type*} [LinearOrderedField α]

/-- `np.mean(l)` : sum divided by length (0/0 = 0 never arises on the paths used). -/
def npMean (l : List α) : α := l.sum / (l.length : α)

/-- `np.std(l)` : population standard deviation, the square root of the mean
of squared deviations.  The square root is the (parametric) float `sqrt`. -/
def npStd (sqrt : α → α) (l : List α) : α :=
  sqrt (npMean (l.map (fun x => (x - npMean l) ^ 2)))

/-- `Option.bind`, under a name the compiler will not inline (the chained
histogram pipeline otherwise explodes during code generation). -/
@[noinline] def obind {β γ : Type*} (o : Option β) (f : β → Option γ) : Option γ :=
  o.bind f

namespace FeatureExtractor

/-- `self.angle_bins = 20` -/
def angle_bins : ℕ := 20
/-- `self.speed_bins = 10` -/
def speed_bins : ℕ := 10
/-- `self.coord_bins = 20` -/
def coord_bins : ℕ := 20
/-- `self.pressure_bins = 10` -/
def pressure_bins : ℕ := 10

/-- The forward-difference comprehension
`[current[i+1] - current[i] for i in range(len(current)-1)]`. -/
def diffList (l : List α) : List α :=
  (List.range (l.length - 1)).map (fun i => l.getD (i + 1) 0 - l.getD i 0)

/-- The loop body of `compute_derivatives`: starting from `current`, produce
the list of the next `n` successive forward-difference derivatives. -/
def derivLoop (current : List α) : ℕ → List (List α)
  | 0 => []
  | n + 1 =>
    let deriv := diffList current
    deriv :: derivLoop deriv n

/-- `FeatureExtractor.compute_derivatives(data, max_order)`.  The Python dict
`{1: d1, ..., max_order: dmax}` is represented as the list `[d1, ..., dmax]`. -/
def compute_derivatives (data : List α) (max_order : ℕ) : List (List α) :=
  derivLoop data max_order

/-- `derivatives.get(k, [])` for the dict represented as a list (order `k`
lives at index `k - 1`). -/
def dictGet (derivs : List (List α)) (k : ℕ) : List α :=
  derivs.getD (k - 1) []

/-- `FeatureExtractor.compute_polar_coords(x_deriv, y_deriv)`: one pass over
`zip(x_deriv, y_deriv)` appending `hypot(x, y)` and `atan2(y, x)`. -/
def compute_polar_coords (hypot atan2 : α → α → α) (x_deriv y_deriv : List α) :
    List α × List α :=
  ((x_deriv.zip y_deriv).map (fun p => hypot p.1 p.2),
   (x_deriv.zip y_deriv).map (fun p => atan2 p.2 p.1))

/-- `np.linspace(lo, hi, bins + 1)[i]`, the `i`-th bin edge. -/
def binEdge (lo hi : α) (bins : ℕ) (i : ℕ) : α :=
  lo + (i : α) * (hi - lo) / (bins : α)

/-- The full edge array `np.linspace(lo, hi, bins + 1)`. -/
def linspaceEdges (lo hi : α) (bins : ℕ) : List α :=
  (List.range (bins + 1)).map (binEdge lo hi bins)

/-- `np.searchsorted(edges, v, side = right)` on the sorted edge array:
the number of edges that are `≤ v`. -/
def searchRight (edges : List α) (v : α) : ℕ :=
  (edges.filter (fun e => decide (e ≤ v))).length

/-- The bin index a value falls into under numpy's histogram edge policy:
values outside `[lo, hi]` are dropped (`none`), all bins are half-open
`[e_j, e_(j+1))` except the final bin which is closed, so `v = hi` lands in
bin `bins - 1`.  This is the per-axis rule of both `np.histogram` (with an
explicit edge array) and `np.histogram2d`. -/
def binIdx (lo hi : α) (bins : ℕ) (v : α) : Option ℕ :=
  if v < lo ∨ hi < v then none
  else if hi ≤ v then some (bins - 1)
  else some (searchRight (linspaceEdges lo hi bins) v - 1)

/-- The count vector of `np.histogram(data, bins = linspace(lo, hi, bins+1))`. -/
def histCounts (lo hi : α) (bins : ℕ) (data : List α) : List ℕ :=
  (List.range bins).map
    (fun j => (data.filter (fun v => decide (binIdx lo hi bins v = some j))).length)

/-- The flattened (row-major) count vector of
`np.histogram2d(x, y, bins = [x_edges, y_edges])`: cell `(ix, iy)` sits at
index `ix * y_bins + iy`. -/
def histCounts2d (xlo xhi : α) (xbins : ℕ) (ylo yhi : α) (ybins : ℕ)
    (x y : List α) : List ℕ :=
  (List.range (xbins * ybins)).map
    (fun c => ((x.zip y).filter
      (fun p => decide (binIdx xlo xhi xbins p.1 = some (c / ybins)) &&
                decide (binIdx ylo yhi ybins p.2 = some (c % ybins)))).length)

/-- `FeatureExtractor._hist_1d(data, bins, min_val, max_val, freq_type, sigma_factor)`.
`none` models the `ValueError` `np.histogram` raises on a decreasing edge
array (unreachable in practice because the float `np.std` is nonnegative). -/
def hist1d (sqrt : α → α) (data : List α) (bins : ℕ) (min_val max_val : α)
    (relative : Bool) (sigma_factor : α) : Option (List α) :=
  if data = [] then some (List.replicate bins 0)
  else
    let lo := if 0 < sigma_factor then npMean data - sigma_factor * npStd sqrt data
              else min_val
    let hi := if 0 < sigma_factor then npMean data + sigma_factor * npStd sqrt data
              else max_val
    if hi < lo then none
    else
      let counts := histCounts lo hi bins data
      some (if relative then counts.map (fun c : ℕ => (c : α) / (data.length : α))
            else counts.map (fun c : ℕ => (c : α)))

/-- `FeatureExtractor._hist_2d(x, y, x_bins, y_bins, x_min, x_max, y_min, y_max,
x_sigma, y_sigma, freq_type)`.  The first `none` branch models the
`ValueError` raised by `np.histogram2d` when the two (non-empty) coordinate
sequences have different lengths; the second models decreasing edges. -/
def hist2d (sqrt : α → α) (x y : List α) (x_bins y_bins : ℕ)
    (x_min x_max y_min y_max : α) (x_sigma y_sigma : α) (relative : Bool) :
    Option (List α) :=
  if x = [] ∨ y = [] then some (List.replicate (x_bins * y_bins) 0)
  else if x.length ≠ y.length then none
  else
    let xlo := if 0 < x_sigma then npMean x - x_sigma * npStd sqrt x else x_min
    let xhi := if 0 < x_sigma then npMean x + x_sigma * npStd sqrt x else x_max
    let ylo := if 0 < y_sigma then npMean y - y_sigma * npStd sqrt y else y_min
    let yhi := if 0 < y_sigma then npMean y + y_sigma * npStd sqrt y else y_max
    if xhi < xlo ∨ yhi < ylo then none
    else
      let counts := histCounts2d xlo xhi x_bins ylo yhi y_bins x y
      some (if relative then counts.map (fun c : ℕ => (c : α) / (x.length : α))
            else counts.map (fun c : ℕ => (c : α)))

/-- Loop body of histogram blocks 10-11: truncate the coordinate-derivative
pair to the common length and take a `coord_bins//2 × coord_bins//2`
relative 2d histogram with dynamic (3 sigma) ranges. -/
def coord_pair_block (sqrt : α → α) (x y : List α) : Option (List α) :=
  let min_len := min x.length y.length
  hist2d sqrt (x.take min_len) (y.take min_len) (coord_bins / 2) (coord_bins / 2)
    0 0 0 0 3 3 true

/-- Loop body of histogram blocks 12-14: truncate the angle/speed pair to the
common length, split at the midpoint, and emit the two
`angle_bins × speed_bins` relative 2d histograms. -/
def angle_speed_block (sqrt : α → α) (pi : α) (angle_data speed_data : List α) :
    Option (List α) :=
  let min_len := min angle_data.length speed_data.length
  let a := angle_data.take min_len
  let s := speed_data.take min_len
  let split := min_len / 2
  obind (hist2d sqrt (a.take split) (s.take split) angle_bins speed_bins
      (-pi) pi 0 0 0 3 true) fun h1 =>
  obind (hist2d sqrt (a.drop split) (s.drop split) angle_bins speed_bins
      (-pi) pi 0 0 0 3 true) fun h2 =>
  some (h1 ++ h2)

/-- Loop body of histogram blocks 15-16: a zero block of length `bins * 2`
for empty pressure data, otherwise the two midpoint-split 1d histograms. -/
def pressure_block (sqrt : α → α) (p_data : List α) (bins : ℕ)
    (relative : Bool) : Option (List α) :=
  if p_data = [] then some (List.replicate (bins * 2) 0)
  else
    let split := p_data.length / 2
    obind (hist1d sqrt (p_data.take split) bins 0 0 relative 3) fun h1 =>
    obind (hist1d sqrt (p_data.drop split) bins 0 0 relative 3) fun h2 =>
    some (h1 ++ h2)

/-- `FeatureExtractor.process_signature(X, Y, P)`: the 16-block pipeline. -/
def process_signature (sqrt : α → α) (hypot atan2 : α → α → α) (pi : α)
    (X Y P : List α) : Option (List α) :=
  let x_derivs := compute_derivatives X 2
  let y_derivs := compute_derivatives Y 2
  let p_derivs := compute_derivatives P 2
  let x1 := dictGet x_derivs 1
  let x2 := dictGet x_derivs 2
  let y1 := dictGet y_derivs 1
  let y2 := dictGet y_derivs 2
  let p1 := dictGet p_derivs 1
  let p2 := dictGet p_derivs 2
  let rt1 := if x1 ≠ [] ∧ y1 ≠ [] then compute_polar_coords hypot atan2 x1 y1
             else ([], [])
  let r1 := rt1.1
  let theta1 := rt1.2
  obind (hist1d sqrt theta1 angle_bins (-pi) pi true 0) fun h1 =>
  let theta2_deriv := if 1 < theta1.length then diffList theta1 else []
  obind (hist1d sqrt theta2_deriv angle_bins (-pi) pi true 0) fun h2 =>
  let phi_d := diffList theta1
  let phi_d2 := if 1 < phi_d.length then diffList phi_d else []
  let theta1_valid := if 2 ≤ theta1.length then theta1.take (theta1.length - 2)
                      else []
  obind (hist2d sqrt theta1_valid phi_d2 angle_bins angle_bins
      (-pi) pi (-pi) pi 0 0 false) fun h3 =>
  obind (hist1d sqrt r1 speed_bins 0 0 false 3) fun h4 =>
  let rt2 := if x2 ≠ [] ∧ y2 ≠ [] then compute_polar_coords hypot atan2 x2 y2
             else ([], [])
  let r2 := rt2.1
  obind (hist1d sqrt r2 speed_bins 0 0 false 3) fun h5 =>
  obind (hist1d sqrt x1 coord_bins 0 0 true 3) fun h6 =>
  obind (hist1d sqrt y1 coord_bins 0 0 true 3) fun h7 =>
  obind (hist1d sqrt x2 coord_bins 0 0 true 3) fun h8 =>
  obind (hist1d sqrt y2 coord_bins 0 0 true 3) fun h9 =>
  obind (coord_pair_block sqrt x1 x2) fun h10 =>
  obind (coord_pair_block sqrt y1 y2) fun h11 =>
  obind (angle_speed_block sqrt pi theta1 r1) fun h12 =>
  obind (angle_speed_block sqrt pi theta2_deriv r2) fun h13 =>
  obind (angle_speed_block sqrt pi theta1 r2) fun h14 =>
  obind (pressure_block sqrt p1 pressure_bins false) fun h15 =>
  obind (pressure_block sqrt p2 pressure_bins true) fun h16 =>
  some (h1 ++ h2 ++ h3 ++ h4 ++ h5 ++ h6 ++ h7 ++ h8 ++ h9 ++ h10 ++ h11 ++
        h12 ++ h13 ++ h14 ++ h15 ++ h16)

end FeatureExtractor

namespace TemplateGenerator

/-- Column `i` of the stacked enrollment matrix `np.array(enrolled_features)`. -/
def column (enrolled : List (List α)) (i : ℕ) : List α :=
  enrolled.map (fun v => v.getD i 0)

/-- `TemplateGenerator.generate_template(enrolled_features)` with scale `beta`.
`none` on an empty collection (np.mean over axis 0 of an empty array is a
scalar nan, so the subsequent `len(q)` raises `TypeError`) and on ragged
input (`np.array` raises `ValueError`). -/
def generate_template (sqrt : α → α) (beta : α) (enrolled_features : List (List α)) :
    Option (List α × List α) :=
  match enrolled_features with
  | [] => none
  | v0 :: rest =>
    if ∀ v ∈ rest, v.length = v0.length then
      let L := v0.length
      let sigma := fun i => npStd sqrt (column (v0 :: rest) i)
      let q := (List.range L).map
        (fun i => beta * sigma i + (if i < 100 then (0.002 : α) else 0.8))
      let template := (List.range L).map
        (fun i => npMean ((column (v0 :: rest) i).map (fun x => x / q.getD i 0)))
      some (template, q)
    else none

end TemplateGenerator

namespace Matcher

/-- Elementwise binary numpy operation on two 1-d arrays, with numpy's
broadcasting rule: equal lengths, or one side of length 1 stretched to the
other; anything else raises (`none`). -/
def np_broadcast2 (f : α → α → α) (a b : List α) : Option (List α) :=
  if a.length = b.length then some (List.zipWith f a b)
  else if a.length = 1 then some (b.map (fun y => f (a.getD 0 0) y))
  else if b.length = 1 then some (a.map (fun x => f x (b.getD 0 0)))
  else none

/-- `Matcher.verify_signature(test_feature, template, q)` : quantize the test
vector by `q` and return the Manhattan distance to the template. -/
def verify_signature (test_feature template q : List α) : Option α :=
  obind (np_broadcast2 (fun a b => a / b) test_feature q) fun quantized_test =>
  obind (np_broadcast2 (fun a b => a - b) quantized_test template) fun diff =>
  some ((diff.map (fun d => |d|)).sum)

end Matcher

/-! ### Basic list lemmas -/

lemma getD_range_map {β : Type*} (f : ℕ → β) (n j : ℕ) (d : β) (h : j < n) :
    ((List.range n).map f).getD j d = f j := by
  rw [List.getD_eq_getElem _ _ (by simpa using h)]
  simp

namespace FeatureExtractor

lemma diffList_length (l : List α) : (diffList l).length = l.length - 1 := by
  simp [diffList]

lemma diffList_getD (l : List α) (i : ℕ) (h : i + 1 < l.length) :
    (diffList l).getD i 0 = l.getD (i + 1) 0 - l.getD i 0 := by
  rw [diffList, getD_range_map]
  omega

lemma diffList_of_short (l : List α) (h : l.length < 2) : diffList l = [] := by
  have h0 : l.length - 1 = 0 := by omega
  simp [diffList, h0]

lemma diffList_iterate_length (k : ℕ) (l : List α) :
    (diffList^[k] l).length = l.length - k := by
  induction k generalizing l with
  | zero => simp
  | succ n ih =>
    rw [Function.iterate_succ_apply, ih, diffList_length]
    omega

lemma derivLoop_getD (m : ℕ) : ∀ (k : ℕ) (cur : List α), k < m →
    (derivLoop cur m).getD k [] = diffList^[k + 1] cur := by
  induction m with
  | zero => omega
  | succ n ih =>
    intro k cur hk
    cases k with
    | zero => simp [derivLoop]
    | succ j =>
      have hstep : (derivLoop cur (n + 1)).getD (j + 1) [] =
          (derivLoop (diffList cur) n).getD j [] := by
        simp [derivLoop]
      rw [hstep, ih j (diffList cur) (by omega), ← Function.iterate_succ_apply]

lemma compute_derivatives_getD (data : List α) (m k : ℕ) (h1 : 1 ≤ k) (h2 : k ≤ m) :
    dictGet (compute_derivatives data m) k = diffList^[k] data := by
  have hk : k - 1 < m := by omega
  have hd := derivLoop_getD m (k - 1) data hk
  rw [dictGet, compute_derivatives, hd]
  congr 1
  omega

end FeatureExtractor

open FeatureExtractor TemplateGenerator Matcher

/-- Claim C6: `compute_derivatives` maps each order `k = 1..max_order` to the
first difference of the order-`(k-1)` sequence (order 0 being the input), of
length `N - k` (so length `N - k` whenever `N ≥ k + 1`); once the source
series has fewer than 2 elements the result for that order is the empty
sequence.  The operation is a total function, so it never fails. -/
theorem C6_compute_derivatives (data : List α) (m k : ℕ)
    (hk1 : 1 ≤ k) (hkm : k ≤ m) :
    dictGet (compute_derivatives data m) k =
        diffList (if k = 1 then data else dictGet (compute_derivatives data m) (k - 1))
    ∧ (dictGet (compute_derivatives data m) k).length = data.length - k
    ∧ (∀ i, i + 1 <
          (if k = 1 then data else dictGet (compute_derivatives data m) (k - 1)).length →
        (dictGet (compute_derivatives data m) k).getD i 0 =
          (if k = 1 then data else dictGet (compute_derivatives data m) (k - 1)).getD (i + 1) 0
          - (if k = 1 then data else dictGet (compute_derivatives data m) (k - 1)).getD i 0)
    ∧ ((if k = 1 then data else dictGet (compute_derivatives data m) (k - 1)).length < 2 →
        dictGet (compute_derivatives data m) k = []) := by
  have hprev : (if k = 1 then data else dictGet (compute_derivatives data m) (k - 1)) =
      diffList^[k - 1] data := by
    by_cases h : k = 1
    · simp [h]
    · rw [if_neg h, compute_derivatives_getD data m (k - 1) (by omega) (by omega)]
  have hk : dictGet (compute_derivatives data m) k = diffList^[k] data :=
    compute_derivatives_getD data m k hk1 hkm
  have hiter : diffList^[k] data = diffList (diffList^[k - 1] data) := by
    conv_lhs => rw [show k = (k - 1) + 1 by omega]
    rw [Function.iterate_succ_apply']
  have hstep : dictGet (compute_derivatives data m) k =
      diffList (if k = 1 then data else dictGet (compute_derivatives data m) (k - 1)) := by
    rw [hk, hprev, hiter]
  refine ⟨hstep, ?_, ?_, ?_⟩
  · rw [hk, diffList_iterate_length]
  · intro i hi
    rw [hstep]
    exact diffList_getD _ i hi
  · intro hshort
    rw [hstep]
    exact diffList_of_short _ hshort

/-- Witness for C6 at the concrete series `[1, 2, 4]` with `max_order = 2`,
`k = 2`. -/
theorem C6_witness :
    dictGet (compute_derivatives [(1 : ℚ), 2, 4] 2) 2 =
        diffList (dictGet (compute_derivatives [(1 : ℚ), 2, 4] 2) 1)
    ∧ (dictGet (compute_derivatives [(1 : ℚ), 2, 4] 2) 2).length =
        [(1 : ℚ), 2, 4].length - 2 := by
  have h := C6_compute_derivatives [(1 : ℚ), 2, 4] 2 2 (by omega) (by omega)
  exact ⟨by simpa using h.1, h.2.1⟩

/-- Claim C8: an empty data sequence is never a histogram error: `_hist_1d`
returns the all-zero vector of length `bins`, and `_hist_2d` returns the
all-zero vector of length `bins_x * bins_y` whenever either coordinate
sequence is empty, for every bin configuration and either frequency mode. -/
theorem C8_empty_histograms :
    (∀ (sqrt : α → α) (bins : ℕ) (mn mx : α) (rel : Bool) (sf : α),
      hist1d sqrt ([] : List α) bins mn mx rel sf = some (List.replicate bins 0))
    ∧ (∀ (sqrt : α → α) (y : List α) (xb yb : ℕ) (xmn xmx ymn ymx sx sy : α) (rel : Bool),
      hist2d sqrt ([] : List α) y xb yb xmn xmx ymn ymx sx sy rel =
        some (List.replicate (xb * yb) 0))
    ∧ (∀ (sqrt : α → α) (x : List α) (xb yb : ℕ) (xmn xmx ymn ymx sx sy : α) (rel : Bool),
      hist2d sqrt x ([] : List α) xb yb xmn xmx ymn ymx sx sy rel =
        some (List.replicate (xb * yb) 0)) := by
  refine ⟨fun sqrt bins mn mx rel sf => ?_,
    fun sqrt y xb yb xmn xmx ymn ymx sx sy rel => ?_,
    fun sqrt x xb yb xmn xmx ymn ymx sx sy rel => ?_⟩
  · simp [hist1d]
  · simp [hist2d]
  · simp [hist2d]


/-! ### Matcher lemmas -/

lemma zipWith_sub_self (l : List α) :
    List.zipWith (fun a b => a - b) l l = List.replicate l.length 0 := by
  induction l with
  | nil => rfl
  | cons x xs ih => simp [ih, List.replicate_succ]

lemma sum_map_abs_nonneg (l : List α) : 0 ≤ (l.map (fun d => |d|)).sum := by
  refine List.sum_nonneg ?_
  intro x hx
  obtain ⟨d, _, rfl⟩ := List.mem_map.mp hx
  exact abs_nonneg d

lemma np_broadcast2_of_length_eq (f : α → α → α) (a b : List α)
    (h : a.length = b.length) :
    np_broadcast2 f a b = some (List.zipWith f a b) := by
  rw [np_broadcast2, if_pos h]

lemma np_broadcast2_eq_none (f : α → α → α) (a b : List α)
    (h : a.length ≠ b.length) (ha : a.length ≠ 1) (hb : b.length ≠ 1) :
    np_broadcast2 f a b = none := by
  rw [np_broadcast2, if_neg h, if_neg ha, if_neg hb]

lemma verify_signature_eq_of_lengths (test template q : List α)
    (h1 : test.length = q.length) (h2 : test.length = template.length) :
    verify_signature test template q =
      some (((List.zipWith (fun a b => a - b)
        (List.zipWith (fun a b => a / b) test q) template).map (fun d => |d|)).sum) := by
  rw [verify_signature, np_broadcast2_of_length_eq _ _ _ h1, obind, Option.some_bind,
    np_broadcast2_of_length_eq _ _ _ (by simp [List.length_zipWith]; omega),
    obind, Option.some_bind]

/-- Claim C3: for equal-length vectors with every quantization step nonzero,
`Matcher.verify_signature` returns the sum over all indices of
`|test[i]/q[i] - template[i]|`; the result is nonnegative, and it is `0`
whenever `test ⊘ q` equals `template` exactly. -/
theorem C3_verify_signature (test template q : List α) (L : ℕ)
    (h1 : test.length = L) (h2 : template.length = L) (h3 : q.length = L)
    (hq : ∀ i, i < L → q.getD i 0 ≠ 0) :
    ∃ s, verify_signature test template q = some s
    ∧ s = ((List.range L).map
        (fun i => |test.getD i 0 / q.getD i 0 - template.getD i 0|)).sum
    ∧ 0 ≤ s
    ∧ (List.zipWith (fun a b => a / b) test q = template → s = 0) := by
  have hv := verify_signature_eq_of_lengths test template q (by omega) (by omega)
  refine ⟨_, hv, ?_, sum_map_abs_nonneg _, ?_⟩
  · congr 1
    refine List.ext_getElem (by simp [List.length_zipWith]; omega) ?_
    intro i hi1 hi2
    have hiL : i < L := by
      simp only [List.length_map, List.length_zipWith, h1, h2, h3] at hi1
      omega
    simp only [List.getElem_map, List.getElem_zipWith, List.getElem_range]
    rw [List.getD_eq_getElem test 0 (by omega), List.getD_eq_getElem q 0 (by omega),
      List.getD_eq_getElem template 0 (by omega)]
  · intro heq
    rw [heq, zipWith_sub_self]
    simp

/-- Witness for C3 with `test = [2, 3]`, `template = [2, 3]`, `q = [1, 1]`. -/
theorem C3_witness :
    verify_signature [(2 : ℚ), 3] [2, 3] [1, 1] = some 0 := by
  obtain ⟨s, hv, hs, -, hzero⟩ :=
    C3_verify_signature [(2 : ℚ), 3] [2, 3] [1, 1] 2 rfl rfl rfl
      (by intro i hi; interval_cases i <;> norm_num)
  rw [hv, hzero (by norm_num)]

/-- Counterexample to claim C4 as stated: a test vector of length 1 differs
in length from the stored pair of length 2, yet `verify_signature` silently
returns the numeric result `0` (numpy broadcasting stretches the length-1
array) instead of raising an error. -/
theorem C4_counterexample :
    Matcher.verify_signature [(1 : ℚ)] [1, 1] [1, 1] = some 0 ∧
      ([(1 : ℚ)].length ≠ [(1 : ℚ), 1].length) := by
  constructor
  · rw [Matcher.verify_signature, Matcher.np_broadcast2]
    norm_num [obind, Matcher.np_broadcast2, List.getD]
  · decide

/-- Claim C4 (amended): `generate_template` on an empty enrollment collection
raises an error, and `verify_signature` raises an error on a test vector of
mismatched length, except that numpy broadcasting silently returns a
numeric result when the test vector or the stored pair has length 1. -/
theorem C4_amended :
    (∀ (sqrt : α → α) (beta : α),
      generate_template sqrt beta ([] : List (List α)) = none)
    ∧ (∀ (test template q : List α) (L : ℕ), template.length = L → q.length = L →
        test.length ≠ L → test.length ≠ 1 → L ≠ 1 →
        verify_signature test template q = none) := by
  constructor
  · intro sqrt beta
    rfl
  · intro test template q L ht hq hneq hn1 hL1
    rw [verify_signature,
      np_broadcast2_eq_none _ _ _ (by omega) hn1 (by omega), obind, Option.none_bind]

/-- Witness for the amended C4: a length-3 test vector against a stored
length-2 pair is rejected with an error. -/
theorem C4_amended_witness :
    Matcher.verify_signature [(1 : ℚ), 2, 3] [1, 1] [1, 1] = none :=
  C4_amended.2 [(1 : ℚ), 2, 3] [1, 1] [1, 1] 2 rfl rfl (by decide) (by decide)
    (by decide)


/-! ### TemplateGenerator lemmas -/

lemma npMean_replicate (N : ℕ) (hN : 1 ≤ N) (x : α) :
    npMean (List.replicate N x) = x := by
  rw [npMean, List.sum_replicate, List.length_replicate, nsmul_eq_mul,
    mul_div_cancel_left₀ _ (Nat.cast_ne_zero.mpr (by omega : N ≠ 0))]

lemma npStd_replicate (sqrt : α → α) (N : ℕ) (hN : 1 ≤ N) (x : α)
    (hs0 : sqrt 0 = 0) : npStd sqrt (List.replicate N x) = 0 := by
  rw [npStd, npMean_replicate N hN, List.map_replicate, sub_self,
    zero_pow (by omega : 2 ≠ 0)]
  rw [show npMean (List.replicate N (0 : α)) = 0 by
    rw [npMean, List.sum_replicate, smul_zero, zero_div], hs0]

lemma npMean_singleton (x : α) : npMean [x] = x := by
  simpa using npMean_replicate 1 le_rfl x

lemma column_replicate (N : ℕ) (v : List α) (i : ℕ) :
    column (List.replicate N v) i = List.replicate N (v.getD i 0) := by
  rw [column, List.map_replicate]

lemma generate_template_eq (sqrt : α → α) (beta : α) (v0 : List α)
    (rest : List (List α)) (h : ∀ v ∈ rest, v.length = v0.length) :
    generate_template sqrt beta (v0 :: rest) = some (
      (List.range v0.length).map (fun i =>
        npMean ((column (v0 :: rest) i).map (fun x => x /
          (((List.range v0.length).map (fun i =>
            beta * npStd sqrt (column (v0 :: rest) i) +
              (if i < 100 then (0.002 : α) else 0.8))).getD i 0)))),
      (List.range v0.length).map (fun i =>
        beta * npStd sqrt (column (v0 :: rest) i) +
          (if i < 100 then (0.002 : α) else 0.8))) := by
  simp only [generate_template, if_pos h]

/-- Claim C2: for a non-empty enrollment collection of feature vectors of
common length `L` and scale `beta`, `generate_template` returns
`(template, q)` with `q[i] = beta * std_i + eps[i]` (population standard
deviation across the enrollment vectors, `eps[i] = 0.002` for `i < 100` and
`0.8` otherwise) and `template[i]` the mean over enrollment of
`vector[i] / q[i]`; for a single enrollment vector `v`, `q = eps` and
`template = v ⊘ eps`. -/
theorem C2_generate_template (sqrt : α → α) (beta : α)
    (enrolled : List (List α)) (L : ℕ)
    (hne : enrolled ≠ []) (hlen : ∀ v ∈ enrolled, v.length = L) :
    ∃ t q, generate_template sqrt beta enrolled = some (t, q)
    ∧ q = (List.range L).map (fun i =>
        beta * npStd sqrt (column enrolled i) + (if i < 100 then (0.002 : α) else 0.8))
    ∧ t = (List.range L).map (fun i =>
        npMean ((column enrolled i).map (fun x => x /
          (beta * npStd sqrt (column enrolled i) + (if i < 100 then (0.002 : α) else 0.8)))))
    ∧ (∀ v, enrolled = [v] → sqrt 0 = 0 →
        q = (List.range L).map (fun i => if i < 100 then (0.002 : α) else 0.8)
        ∧ t = (List.range L).map (fun i =>
            v.getD i 0 / (if i < 100 then (0.002 : α) else 0.8))) := by
  obtain ⟨v0, rest, rfl⟩ : ∃ v0 rest, enrolled = v0 :: rest := by
    cases enrolled with
    | nil => exact absurd rfl hne
    | cons a l => exact ⟨a, l, rfl⟩
  have hv0 : v0.length = L := hlen v0 (by simp)
  have hrest : ∀ v ∈ rest, v.length = v0.length := by
    intro v hv
    rw [hlen v (by simp [hv]), hv0]
  have heq := generate_template_eq sqrt beta v0 rest hrest
  rw [hv0] at heq
  refine ⟨_, _, heq, rfl, ?_, ?_⟩
  · refine List.map_congr_left ?_
    intro i hi
    have hiL : i < L := List.mem_range.mp hi
    rw [getD_range_map _ _ _ _ hiL]
  · intro v hv hs0
    injection hv with h1 h2
    subst h1
    subst h2
    have hcol : ∀ i, column [v0] i = [v0.getD i 0] := fun i => rfl
    have hstd : ∀ i, npStd sqrt (column [v0] i) = 0 := by
      intro i
      rw [hcol i, show [v0.getD i 0] = List.replicate 1 (v0.getD i 0) from rfl]
      exact npStd_replicate sqrt 1 le_rfl _ hs0
    constructor
    · refine List.map_congr_left ?_
      intro i hi
      rw [hstd i, mul_zero, zero_add]
    · refine List.map_congr_left ?_
      intro i hi
      have hiL : i < L := List.mem_range.mp hi
      rw [getD_range_map _ _ _ _ hiL, hstd i, mul_zero, zero_add, hcol i,
        List.map_cons, List.map_nil, npMean_singleton]

/-- Witness for C2 at enrollment set `[[1, 2]]` with `beta = 3/2`. -/
theorem C2_witness :
    ∃ t q, generate_template (fun x : ℚ => x) (3 / 2) [[1, 2]] = some (t, q)
      ∧ q = (List.range 2).map (fun i => if i < 100 then (0.002 : ℚ) else 0.8) := by
  obtain ⟨t, q, hsome, -, -, hsingle⟩ :=
    C2_generate_template (fun x : ℚ => x) (3 / 2) [[1, 2]] 2 (by simp)
      (by intro v hv; simp at hv; simp [hv])
  obtain ⟨hq, -⟩ := hsingle [1, 2] rfl rfl
  exact ⟨t, q, hsome, hq⟩

/-- Claim C5: enrolling `N ≥ 1` identical copies of a feature vector `v`
yields per-feature standard deviation 0, quantization steps equal to the
epsilon vector (`0.002` below index 100, `0.8` from index 100 on), template
`v ⊘ eps`, and re-scoring `v` itself returns exactly 0. -/
theorem C5_identical_enrollment (sqrt : α → α) (beta : α) (v : List α) (N : ℕ)
    (hN : 1 ≤ N) (hs0 : sqrt 0 = 0) :
    ∃ t q, generate_template sqrt beta (List.replicate N v) = some (t, q)
    ∧ (∀ i, npStd sqrt (column (List.replicate N v) i) = 0)
    ∧ q = (List.range v.length).map (fun i => if i < 100 then (0.002 : α) else 0.8)
    ∧ t = (List.range v.length).map (fun i =>
        v.getD i 0 / (if i < 100 then (0.002 : α) else 0.8))
    ∧ verify_signature v t q = some 0 := by
  have hstd : ∀ i, npStd sqrt (column (List.replicate N v) i) = 0 := by
    intro i
    rw [column_replicate]
    exact npStd_replicate sqrt N hN _ hs0
  obtain ⟨n, rfl⟩ : ∃ n, N = n + 1 := ⟨N - 1, by omega⟩
  have hrest : ∀ u ∈ List.replicate n v, u.length = v.length := by
    intro u hu
    rw [List.eq_of_mem_replicate hu]
  have heq := generate_template_eq sqrt beta v (List.replicate n v) hrest
  rw [← List.replicate_succ] at heq
  have hq : (List.range v.length).map (fun i =>
      beta * npStd sqrt (column (List.replicate (n + 1) v) i) +
        (if i < 100 then (0.002 : α) else 0.8)) =
      (List.range v.length).map (fun i => if i < 100 then (0.002 : α) else 0.8) := by
    refine List.map_congr_left ?_
    intro i hi
    rw [hstd i, mul_zero, zero_add]
  have ht : (List.range v.length).map (fun i =>
      npMean ((column (List.replicate (n + 1) v) i).map (fun x => x /
        (((List.range v.length).map (fun i =>
          beta * npStd sqrt (column (List.replicate (n + 1) v) i) +
            (if i < 100 then (0.002 : α) else 0.8))).getD i 0)))) =
      (List.range v.length).map (fun i =>
        v.getD i 0 / (if i < 100 then (0.002 : α) else 0.8)) := by
    refine List.map_congr_left ?_
    intro i hi
    have hiL : i < v.length := List.mem_range.mp hi
    rw [getD_range_map _ _ _ _ hiL, hstd i, mul_zero, zero_add, column_replicate,
      List.map_replicate, npMean_replicate (n + 1) (by omega)]
  rw [ht] at heq
  rw [hq] at heq
  refine ⟨_, _, heq, hstd, rfl, rfl, ?_⟩
  have hlen_q : ((List.range v.length).map
      (fun i => if i < 100 then (0.002 : α) else 0.8)).length = v.length := by simp
  have hlen_t : ((List.range v.length).map (fun i =>
      v.getD i 0 / (if i < 100 then (0.002 : α) else 0.8))).length = v.length := by simp
  have hzip : List.zipWith (fun a b => a / b) v
      ((List.range v.length).map (fun i => if i < 100 then (0.002 : α) else 0.8)) =
      (List.range v.length).map (fun i =>
        v.getD i 0 / (if i < 100 then (0.002 : α) else 0.8)) := by
    refine List.ext_getElem (by simp [List.length_zipWith]) ?_
    intro i hi1 hi2
    have hiL : i < v.length := by
      simp only [List.length_zipWith, hlen_q] at hi1
      omega
    simp only [List.getElem_zipWith, List.getElem_map, List.getElem_range]
    rw [List.getD_eq_getElem v 0 hiL]
  rw [verify_signature_eq_of_lengths _ _ _ (by simp) (by simp), hzip,
    zipWith_sub_self]
  simp

/-- Witness for C5: three identical copies of `[5, 6]` over `ℚ`. -/
theorem C5_witness :
    ∃ t q, generate_template (fun x : ℚ => x) 2 (List.replicate 3 [5, 6]) = some (t, q)
      ∧ verify_signature [(5 : ℚ), 6] t q = some 0 := by
  obtain ⟨t, q, hsome, -, -, -, hzero⟩ :=
    C5_identical_enrollment (fun x : ℚ => x) 2 [5, 6] 3 (by omega) rfl
  exact ⟨t, q, hsome, hzero⟩

/-! ### Histogram bin-edge lemmas -/

namespace FeatureExtractor

lemma binEdge_zero (lo hi : α) (bins : ℕ) : binEdge lo hi bins 0 = lo := by
  simp [binEdge]

lemma binEdge_last (lo hi : α) (bins : ℕ) (hb : 0 < bins) :
    binEdge lo hi bins bins = hi := by
  have hbne : (bins : α) ≠ 0 := Nat.cast_ne_zero.mpr (by omega)
  rw [binEdge]
  field_simp

lemma binEdge_mono (lo hi : α) (bins : ℕ) (hlohi : lo ≤ hi) (hb : 0 < bins)
    {i k : ℕ} (hik : i ≤ k) : binEdge lo hi bins i ≤ binEdge lo hi bins k := by
  have hbpos : (0 : α) < (bins : α) := Nat.cast_pos.mpr hb
  have h1 : (i : α) * (hi - lo) ≤ (k : α) * (hi - lo) :=
    mul_le_mul_of_nonneg_right (Nat.cast_le.mpr hik) (sub_nonneg.mpr hlohi)
  exact add_le_add_left ((div_le_div_right hbpos).mpr h1) lo

lemma binEdge_strictMono (lo hi : α) (bins : ℕ) (hlt : lo < hi) (hb : 0 < bins)
    {i k : ℕ} (hik : i < k) : binEdge lo hi bins i < binEdge lo hi bins k := by
  have hbpos : (0 : α) < (bins : α) := Nat.cast_pos.mpr hb
  have h1 : (i : α) * (hi - lo) < (k : α) * (hi - lo) :=
    mul_lt_mul_of_pos_right (Nat.cast_lt.mpr hik) (sub_pos.mpr hlt)
  exact add_lt_add_left ((div_lt_div_right hbpos).mpr h1) lo

lemma length_filter_range_le (n j : ℕ) :
    ((List.range n).filter (fun i => decide (i ≤ j))).length = min (j + 1) n := by
  induction n with
  | zero => simp
  | succ m ih =>
    rw [List.range_succ, List.filter_append, List.length_append, ih]
    by_cases h : m ≤ j
    · simp only [List.filter_cons, List.filter_nil, decide_eq_true_eq, if_pos h]
      simp only [List.length_cons, List.length_nil]
      omega
    · simp only [List.filter_cons, List.filter_nil, decide_eq_true_eq, if_neg h]
      simp only [List.length_nil]
      omega

lemma searchRight_eq (lo hi : α) (bins : ℕ) (hlohi : lo ≤ hi) (hb : 0 < bins)
    (j : ℕ) (hj : j < bins) (v : α)
    (h1 : binEdge lo hi bins j ≤ v) (h2 : v < binEdge lo hi bins (j + 1)) :
    searchRight (linspaceEdges lo hi bins) v = j + 1 := by
  rw [searchRight, linspaceEdges, List.filter_map, List.length_map]
  have hcongr : (List.range (bins + 1)).filter
      ((fun e => decide (e ≤ v)) ∘ binEdge lo hi bins) =
      (List.range (bins + 1)).filter (fun i => decide (i ≤ j)) := by
    refine List.filter_congr ?_
    intro i hmem
    simp only [Function.comp_apply]
    refine decide_eq_decide.mpr ?_
    constructor
    · intro hle
      by_contra hgt
      have hij : j + 1 ≤ i := by omega
      have hmono := binEdge_mono lo hi bins hlohi hb hij
      exact absurd hle (not_le.mpr (lt_of_lt_of_le h2 hmono))
    · intro hij
      exact le_trans (binEdge_mono lo hi bins hlohi hb hij) h1
  rw [hcongr, length_filter_range_le]
  omega

lemma exists_bin (lo hi : α) (bins : ℕ) (hlt : lo < hi) (hb : 0 < bins)
    (v : α) (hv1 : lo ≤ v) (hv2 : v < hi) :
    ∃ j, j < bins ∧ binEdge lo hi bins j ≤ v ∧ v < binEdge lo hi bins (j + 1) := by
  have h0mem : (0 : ℕ) ∈ (Finset.range (bins + 1)).filter
      (fun i => binEdge lo hi bins i ≤ v) := by
    rw [Finset.mem_filter]
    refine ⟨Finset.mem_range.mpr (by omega), ?_⟩
    rw [binEdge_zero]
    exact hv1
  have hne : ((Finset.range (bins + 1)).filter
      (fun i => binEdge lo hi bins i ≤ v)).Nonempty := ⟨0, h0mem⟩
  obtain ⟨j0, hj0mem, hj0max⟩ :
      ∃ j0, j0 ∈ (Finset.range (bins + 1)).filter
        (fun i => binEdge lo hi bins i ≤ v) ∧
        ∀ k ∈ (Finset.range (bins + 1)).filter
          (fun i => binEdge lo hi bins i ≤ v), k ≤ j0 :=
    ⟨_, Finset.max'_mem _ hne, fun k hk => Finset.le_max' _ k hk⟩
  rw [Finset.mem_filter, Finset.mem_range] at hj0mem
  obtain ⟨hj0r, hj0le⟩ := hj0mem
  have hj0bins : j0 ≠ bins := by
    intro heq
    rw [heq, binEdge_last lo hi bins hb] at hj0le
    exact absurd hj0le (not_le.mpr hv2)
  refine ⟨j0, by omega, hj0le, ?_⟩
  by_contra hge
  push_neg at hge
  have hj1mem : j0 + 1 ∈ (Finset.range (bins + 1)).filter
      (fun i => binEdge lo hi bins i ≤ v) := by
    rw [Finset.mem_filter, Finset.mem_range]
    exact ⟨by omega, hge⟩
  exact absurd (hj0max _ hj1mem) (by omega)

lemma binIdx_eq_some_iff (lo hi : α) (bins : ℕ) (hlt : lo < hi) (hb : 0 < bins)
    (j : ℕ) (hj : j < bins) (v : α) :
    binIdx lo hi bins v = some j ↔
      (binEdge lo hi bins j ≤ v ∧
        (if j = bins - 1 then v ≤ hi else v < binEdge lo hi bins (j + 1))) := by
  by_cases hout : v < lo ∨ hi < v
  · rw [binIdx, if_pos hout]
    constructor
    · intro h
      exact absurd h (by simp)
    · intro hRHS
      exfalso
      obtain ⟨hle, hup⟩ := hRHS
      rcases hout with h | h
      · have hmono := binEdge_mono lo hi bins hlt.le hb (Nat.zero_le j)
        rw [binEdge_zero] at hmono
        exact absurd (le_trans hmono hle) (not_le.mpr h)
      · by_cases hjl : j = bins - 1
        · rw [if_pos hjl] at hup
          exact absurd hup (not_le.mpr h)
        · rw [if_neg hjl] at hup
          have hmono := binEdge_mono lo hi bins hlt.le hb (by omega : j + 1 ≤ bins)
          rw [binEdge_last lo hi bins hb] at hmono
          exact absurd (lt_of_lt_of_le hup hmono) (not_lt.mpr h.le)
  · push_neg at hout
    obtain ⟨hvlo, hvhi⟩ := hout
    by_cases hhi : hi ≤ v
    · have hveq : v = hi := le_antisymm hvhi hhi
      rw [binIdx, if_neg (by push_neg; exact ⟨hvlo, hvhi⟩), if_pos hhi]
      constructor
      · intro hs
        have hjeq : j = bins - 1 := by
          have hinj := Option.some_injective _ hs
          omega
        rw [if_pos hjeq, hveq, hjeq]
        refine ⟨?_, le_rfl⟩
        have hmono := binEdge_mono lo hi bins hlt.le hb (by omega : bins - 1 ≤ bins)
        rw [binEdge_last lo hi bins hb] at hmono
        exact hmono
      · rintro ⟨hle, hup⟩
        by_cases hjl : j = bins - 1
        · rw [hjl]
        · exfalso
          rw [if_neg hjl] at hup
          have hmono := binEdge_strictMono lo hi bins hlt hb (by omega : j + 1 < bins)
          rw [show binEdge lo hi bins bins = hi from binEdge_last lo hi bins hb] at hmono
          rw [hveq] at hup
          exact absurd (lt_trans hup hmono) (lt_irrefl hi)
    · push_neg at hhi
      obtain ⟨j0, hj0b, hj0l, hj0u⟩ := exists_bin lo hi bins hlt hb v hvlo hhi
      have hsr := searchRight_eq lo hi bins hlt.le hb j0 hj0b v hj0l hj0u
      rw [binIdx, if_neg (by push_neg; exact ⟨hvlo, hvhi⟩), if_neg (not_le.mpr hhi), hsr]
      simp only [Nat.add_sub_cancel, Option.some.injEq]
      constructor
      · rintro rfl
        refine ⟨hj0l, ?_⟩
        by_cases hjl : j0 = bins - 1
        · rw [if_pos hjl]
          exact hvhi
        · rw [if_neg hjl]
          exact hj0u
      · rintro ⟨hle, hup⟩
        have hup2 : v < binEdge lo hi bins (j + 1) := by
          by_cases hjl : j = bins - 1
          · have hj1 : j + 1 = bins := by omega
            rw [hj1, binEdge_last lo hi bins hb]
            exact hhi
          · rw [if_neg hjl] at hup
            exact hup
        by_contra hne2
        rcases Nat.lt_or_ge j0 j with hlt2 | hge
        · have hmono : binEdge lo hi bins (j0 + 1) ≤ binEdge lo hi bins j :=
            binEdge_mono lo hi bins hlt.le hb (by omega)
          exact absurd (lt_of_lt_of_le hj0u (le_trans hmono hle)) (lt_irrefl v)
        · have hgt : j < j0 := by omega
          have hmono : binEdge lo hi bins (j + 1) ≤ binEdge lo hi bins j0 :=
            binEdge_mono lo hi bins hlt.le hb (by omega)
          exact absurd (lt_of_lt_of_le hup2 (le_trans hmono hj0l)) (lt_irrefl v)

end FeatureExtractor

/-- Claim C7: in the binning used by `_hist_1d` (and per-axis by `_hist_2d`,
through the shared per-value rule `binIdx`), `[min, max]` is split into
equal-width bins that are half-open `[e_j, e_(j+1))` except the final bin,
which is closed `[e_(bins-1), max]`; a data value exactly equal to the upper
boundary `max` falls into the last bin. -/
theorem C7_bin_edge_policy (data : List α) (bins : ℕ) (lo hi : α) (j : ℕ)
    (hlt : lo < hi) (hb : 0 < bins) :
    (j < bins - 1 → (histCounts lo hi bins data).getD j 0 =
      (data.filter (fun v => decide (binEdge lo hi bins j ≤ v) &&
        decide (v < binEdge lo hi bins (j + 1)))).length)
    ∧ (histCounts lo hi bins data).getD (bins - 1) 0 =
      (data.filter (fun v => decide (binEdge lo hi bins (bins - 1) ≤ v) &&
        decide (v ≤ hi))).length
    ∧ binIdx lo hi bins hi = some (bins - 1) := by
  refine ⟨?_, ?_, ?_⟩
  · intro hj
    rw [histCounts, getD_range_map _ _ _ _ (by omega)]
    congr 1
    refine List.filter_congr ?_
    intro v hv
    have hiff : binIdx lo hi bins v = some j ↔
        (binEdge lo hi bins j ≤ v ∧ v < binEdge lo hi bins (j + 1)) := by
      rw [binIdx_eq_some_iff lo hi bins hlt hb j (by omega) v,
        if_neg (by omega : ¬ j = bins - 1)]
    rw [decide_eq_decide.mpr hiff, Bool.decide_and]
  · rw [histCounts, getD_range_map _ _ _ _ (by omega)]
    congr 1
    refine List.filter_congr ?_
    intro v hv
    have hiff : binIdx lo hi bins v = some (bins - 1) ↔
        (binEdge lo hi bins (bins - 1) ≤ v ∧ v ≤ hi) := by
      rw [binIdx_eq_some_iff lo hi bins hlt hb (bins - 1) (by omega) v, if_pos rfl]
    rw [decide_eq_decide.mpr hiff, Bool.decide_and]
  · rw [binIdx, if_neg (by push_neg; exact ⟨hlt.le, le_rfl⟩), if_pos le_rfl]

/-- Witness for C7 on `[0, 1, 2]` with range `[0, 2]` and 2 bins over `ℚ`. -/
theorem C7_witness :
    (histCounts (0 : ℚ) 2 2 [0, 1, 2]).getD 0 0 =
      ([(0 : ℚ), 1, 2].filter (fun v => decide (binEdge (0 : ℚ) 2 2 0 ≤ v) &&
        decide (v < binEdge (0 : ℚ) 2 2 1))).length
    ∧ binIdx (0 : ℚ) 2 2 2 = some 1 := by
  have h := C7_bin_edge_policy [(0 : ℚ), 1, 2] 2 0 2 0 (by norm_num) (by norm_num)
  exact ⟨h.1 (by norm_num), h.2.2⟩

/-! ### Pipeline shape lemmas -/

lemma obind_some_chain {β γ : Type*} {o : Option β} {Q : β → Prop}
    {f : β → Option γ} {R : γ → Prop}
    (h : ∃ v, o = some v ∧ Q v) (hf : ∀ v, Q v → ∃ w, f v = some w ∧ R w) :
    ∃ w, obind o f = some w ∧ R w := by
  obtain ⟨v, hv, hq⟩ := h
  rw [obind, hv, Option.some_bind]
  exact hf v hq

namespace FeatureExtractor

lemma hist1d_some (sqrt : α → α) (hsqrt : ∀ a, 0 ≤ sqrt a) (data : List α)
    (bins : ℕ) (mn mx : α) (rel : Bool) (sf : α) (hrange : 0 < sf ∨ mn ≤ mx) :
    ∃ v, hist1d sqrt data bins mn mx rel sf = some v ∧ v.length = bins := by
  by_cases hd : data = []
  · exact ⟨List.replicate bins 0, by rw [hist1d, if_pos hd], by simp⟩
  · have hnotlt : ¬ ((if 0 < sf then npMean data + sf * npStd sqrt data else mx) <
        (if 0 < sf then npMean data - sf * npStd sqrt data else mn)) := by
      by_cases hsf : 0 < sf
      · rw [if_pos hsf, if_pos hsf]
        have h0 : 0 ≤ sf * npStd sqrt data := mul_nonneg hsf.le (hsqrt _)
        push_neg
        linarith
      · rw [if_neg hsf, if_neg hsf]
        rcases hrange with h | h
        · exact absurd h hsf
        · exact not_lt.mpr h
    simp only [hist1d, if_neg hd, if_neg hnotlt]
    refine ⟨_, rfl, ?_⟩
    cases rel <;> simp [histCounts]

lemma hist2d_some (sqrt : α → α) (hsqrt : ∀ a, 0 ≤ sqrt a) (x y : List α)
    (xb yb : ℕ) (xmn xmx ymn ymx sx sy : α) (rel : Bool)
    (hxy : x.length = y.length ∨ x = [] ∨ y = [])
    (hx : 0 < sx ∨ xmn ≤ xmx) (hy : 0 < sy ∨ ymn ≤ ymx) :
    ∃ v, hist2d sqrt x y xb yb xmn xmx ymn ymx sx sy rel = some v ∧
      v.length = xb * yb := by
  by_cases hempty : x = [] ∨ y = []
  · exact ⟨List.replicate (xb * yb) 0, by rw [hist2d, if_pos hempty], by simp⟩
  · have hlen : ¬ x.length ≠ y.length := by
      rcases hxy with h | h | h
      · exact not_not_intro h
      · exact absurd (Or.inl h) hempty
      · exact absurd (Or.inr h) hempty
    have hxr : ¬ ((if 0 < sx then npMean x + sx * npStd sqrt x else xmx) <
        (if 0 < sx then npMean x - sx * npStd sqrt x else xmn)) := by
      by_cases hsf : 0 < sx
      · rw [if_pos hsf, if_pos hsf]
        have h0 : 0 ≤ sx * npStd sqrt x := mul_nonneg hsf.le (hsqrt _)
        push_neg
        linarith
      · rw [if_neg hsf, if_neg hsf]
        rcases hx with h | h
        · exact absurd h hsf
        · exact not_lt.mpr h
    have hyr : ¬ ((if 0 < sy then npMean y + sy * npStd sqrt y else ymx) <
        (if 0 < sy then npMean y - sy * npStd sqrt y else ymn)) := by
      by_cases hsf : 0 < sy
      · rw [if_pos hsf, if_pos hsf]
        have h0 : 0 ≤ sy * npStd sqrt y := mul_nonneg hsf.le (hsqrt _)
        push_neg
        linarith
      · rw [if_neg hsf, if_neg hsf]
        rcases hy with h | h
        · exact absurd h hsf
        · exact not_lt.mpr h
    have hcond : ¬ (((if 0 < sx then npMean x + sx * npStd sqrt x else xmx) <
        (if 0 < sx then npMean x - sx * npStd sqrt x else xmn)) ∨
        ((if 0 < sy then npMean y + sy * npStd sqrt y else ymx) <
        (if 0 < sy then npMean y - sy * npStd sqrt y else ymn))) := by
      push_neg at hxr hyr ⊢
      exact ⟨hxr, hyr⟩
    simp only [hist2d, if_neg hempty, if_neg hlen, if_neg hcond]
    refine ⟨_, rfl, ?_⟩
    cases rel <;> simp [histCounts2d]

lemma block3_len (t : List α) :
    (if 2 ≤ t.length then t.take (t.length - 2) else []).length =
      (if 1 < (diffList t).length then diffList (diffList t) else []).length := by
  by_cases h2 : 2 ≤ t.length
  · rw [if_pos h2]
    by_cases h3 : 1 < (diffList t).length
    · rw [if_pos h3]
      rw [List.length_take, diffList_length, diffList_length]
      rw [diffList_length] at h3
      omega
    · rw [if_neg h3]
      rw [List.length_take]
      rw [diffList_length] at h3
      simp only [List.length_nil]
      omega
  · rw [if_neg h2]
    have h3 : ¬ 1 < (diffList t).length := by
      rw [diffList_length]
      omega
    rw [if_neg h3]

lemma take_min_len_eq (x y : List α) :
    (x.take (min x.length y.length)).length = (y.take (min x.length y.length)).length := by
  simp only [List.length_take]
  omega

lemma coord_pair_block_some (sqrt : α → α) (hsqrt : ∀ a, 0 ≤ sqrt a) (x y : List α) :
    ∃ v, coord_pair_block sqrt x y = some v ∧ v.length = 100 := by
  obtain ⟨v, hv, hl⟩ := hist2d_some sqrt hsqrt
    (x.take (min x.length y.length)) (y.take (min x.length y.length))
    (coord_bins / 2) (coord_bins / 2) 0 0 0 0 3 3 true
    (Or.inl (take_min_len_eq x y)) (Or.inl (by norm_num)) (Or.inl (by norm_num))
  refine ⟨v, ?_, ?_⟩
  · simp only [coord_pair_block]
    exact hv
  · rw [hl]
    norm_num [coord_bins]

lemma angle_speed_block_some (sqrt : α → α) (pi : α) (hsqrt : ∀ a, 0 ≤ sqrt a)
    (hpi : 0 ≤ pi) (angle_data speed_data : List α) :
    ∃ v, angle_speed_block sqrt pi angle_data speed_data = some v ∧
      v.length = 400 := by
  simp only [angle_speed_block]
  have htake : ∀ k, ((angle_data.take (min angle_data.length speed_data.length)).take k).length
      = ((speed_data.take (min angle_data.length speed_data.length)).take k).length := by
    intro k
    simp only [List.length_take]
    omega
  have hdrop : ∀ k, ((angle_data.take (min angle_data.length speed_data.length)).drop k).length
      = ((speed_data.take (min angle_data.length speed_data.length)).drop k).length := by
    intro k
    simp only [List.length_drop, List.length_take]
    omega
  refine obind_some_chain (hist2d_some sqrt hsqrt _ _ _ _ _ _ _ _ _ _ _
    (Or.inl (htake _)) (Or.inr (by linarith)) (Or.inl (by norm_num))) ?_
  intro h1 hl1
  refine obind_some_chain (hist2d_some sqrt hsqrt _ _ _ _ _ _ _ _ _ _ _
    (Or.inl (hdrop _)) (Or.inr (by linarith)) (Or.inl (by norm_num))) ?_
  intro h2 hl2
  refine ⟨_, rfl, ?_⟩
  rw [List.length_append, hl1, hl2]
  norm_num [angle_bins, speed_bins]

lemma pressure_block_some (sqrt : α → α) (hsqrt : ∀ a, 0 ≤ sqrt a)
    (p : List α) (bins : ℕ) (rel : Bool) :
    ∃ v, pressure_block sqrt p bins rel = some v ∧ v.length = bins * 2 := by
  by_cases hp : p = []
  · exact ⟨List.replicate (bins * 2) 0, by rw [pressure_block, if_pos hp], by simp⟩
  · simp only [pressure_block, if_neg hp]
    refine obind_some_chain (hist1d_some sqrt hsqrt _ _ _ _ _ _
      (Or.inl (by norm_num))) ?_
    intro h1 hl1
    refine obind_some_chain (hist1d_some sqrt hsqrt _ _ _ _ _ _
      (Or.inl (by norm_num))) ?_
    intro h2 hl2
    refine ⟨_, rfl, ?_⟩
    rw [List.length_append, hl1, hl2]
    omega

end FeatureExtractor

/-- The full pipeline always succeeds and returns a vector of length 1980
that decomposes into the nine histogram block groups of sizes
20, 20, 400, 10, 10, 80, 200, 1200, 40.  The hypotheses record that the
float math library's `sqrt` is nonnegative and `np.pi` is nonnegative. -/
theorem process_signature_some (sqrt : α → α) (hypot atan2 : α → α → α) (pi : α)
    (hsqrt : ∀ a, 0 ≤ sqrt a) (hpi : 0 ≤ pi) (X Y P : List α) :
    ∃ fv, process_signature sqrt hypot atan2 pi X Y P = some fv ∧
      fv.length = 1980 ∧
      ∃ gs : List (List α), fv = gs.flatten ∧
        gs.map List.length = [20, 20, 400, 10, 10, 80, 200, 1200, 40] := by
  simp only [process_signature]
  refine obind_some_chain (hist1d_some sqrt hsqrt _ _ _ _ _ _
    (Or.inr (by linarith))) ?_
  intro h1 hl1
  refine obind_some_chain (hist1d_some sqrt hsqrt _ _ _ _ _ _
    (Or.inr (by linarith))) ?_
  intro h2 hl2
  refine obind_some_chain (hist2d_some sqrt hsqrt _ _ _ _ _ _ _ _ _ _ _
    (Or.inl (block3_len _)) (Or.inr (by linarith)) (Or.inr (by linarith))) ?_
  intro h3 hl3
  refine obind_some_chain (hist1d_some sqrt hsqrt _ _ _ _ _ _
    (Or.inl (by norm_num))) ?_
  intro h4 hl4
  refine obind_some_chain (hist1d_some sqrt hsqrt _ _ _ _ _ _
    (Or.inl (by norm_num))) ?_
  intro h5 hl5
  refine obind_some_chain (hist1d_some sqrt hsqrt _ _ _ _ _ _
    (Or.inl (by norm_num))) ?_
  intro h6 hl6
  refine obind_some_chain (hist1d_some sqrt hsqrt _ _ _ _ _ _
    (Or.inl (by norm_num))) ?_
  intro h7 hl7
  refine obind_some_chain (hist1d_some sqrt hsqrt _ _ _ _ _ _
    (Or.inl (by norm_num))) ?_
  intro h8 hl8
  refine obind_some_chain (hist1d_some sqrt hsqrt _ _ _ _ _ _
    (Or.inl (by norm_num))) ?_
  intro h9 hl9
  refine obind_some_chain (coord_pair_block_some sqrt hsqrt _ _) ?_
  intro h10 hl10
  refine obind_some_chain (coord_pair_block_some sqrt hsqrt _ _) ?_
  intro h11 hl11
  refine obind_some_chain (angle_speed_block_some sqrt pi hsqrt hpi _ _) ?_
  intro h12 hl12
  refine obind_some_chain (angle_speed_block_some sqrt pi hsqrt hpi _ _) ?_
  intro h13 hl13
  refine obind_some_chain (angle_speed_block_some sqrt pi hsqrt hpi _ _) ?_
  intro h14 hl14
  refine obind_some_chain (pressure_block_some sqrt hsqrt _ _ _) ?_
  intro h15 hl15
  refine obind_some_chain (pressure_block_some sqrt hsqrt _ _ _) ?_
  intro h16 hl16
  refine ⟨_, rfl, ?_, ?_⟩
  · simp only [List.length_append, hl1, hl2, hl3, hl4, hl5, hl6, hl7, hl8, hl9,
      hl10, hl11, hl12, hl13, hl14, hl15, hl16, angle_bins, speed_bins,
      coord_bins, pressure_bins]
  · refine ⟨[h1, h2, h3, h4, h5, h6 ++ h7 ++ h8 ++ h9, h10 ++ h11,
      h12 ++ h13 ++ h14, h15 ++ h16], ?_, ?_⟩
    · simp only [List.flatten, List.append_nil, List.append_assoc]
    · simp only [List.map_cons, List.map_nil, List.length_append, hl1, hl2, hl3,
        hl4, hl5, hl6, hl7, hl8, hl9, hl10, hl11, hl12, hl13, hl14, hl15, hl16,
        angle_bins, speed_bins, coord_bins, pressure_bins]

/-- Claim C1: for every input of three numeric sequences X, Y, P — of any
length, including strokes with fewer than 3 points — `process_signature`
returns a feature vector of length exactly 1980, the concatenation of the
histogram block groups of sizes 20+20+400+10+10+80+200+1200+40.  The
hypotheses state the two facts the embedding takes from the float math
library: `np.std`'s square root is nonnegative, and `np.pi ≥ 0`. -/
theorem C1_process_signature_length (sqrt : α → α) (hypot atan2 : α → α → α)
    (pi : α) (hsqrt : ∀ a, 0 ≤ sqrt a) (hpi : 0 ≤ pi) (X Y P : List α) :
    ∃ fv, process_signature sqrt hypot atan2 pi X Y P = some fv ∧
      fv.length = 1980 ∧
      ∃ gs : List (List α), fv = gs.flatten ∧
        gs.map List.length = [20, 20, 400, 10, 10, 80, 200, 1200, 40] :=
  process_signature_some sqrt hypot atan2 pi hsqrt hpi X Y P

/-- Witness for C1 on a concrete 3-point stroke over `ℚ`. -/
theorem C1_witness :
    (process_signature (fun q : ℚ => |q|) (fun a b => a + b) (fun a b => a - b) 3
      [0, 1, 2] [2, 1, 0] [1, 1, 1]).isSome = true := by
  obtain ⟨fv, hfv, -⟩ := C1_process_signature_length (fun q : ℚ => |q|)
    (fun a b => a + b) (fun a b => a - b) 3 (fun a => abs_nonneg a)
    (by norm_num) [0, 1, 2] [2, 1, 0] [1, 1, 1]
  rw [hfv]
  rfl

/-- Claim C10: `_hist_2d` itself performs no truncation — on non-empty inputs
of different lengths it raises (the `ValueError` of `np.histogram2d`,
modelled as `none`) — yet every `_hist_2d` call made inside
`process_signature` receives equal-length sequences, so the pipeline always
succeeds: the error branch is unreachable from `process_signature`. -/
theorem C10_hist2d_mismatch_unreachable :
    (∀ (sqrt : α → α) (x y : List α) (xb yb : ℕ) (xmn xmx ymn ymx sx sy : α)
      (rel : Bool), x ≠ [] → y ≠ [] → x.length ≠ y.length →
      hist2d sqrt x y xb yb xmn xmx ymn ymx sx sy rel = none)
    ∧ (∀ (sqrt : α → α) (hypot atan2 : α → α → α) (pi : α),
      (∀ a, 0 ≤ sqrt a) → 0 ≤ pi → ∀ X Y P : List α,
      (process_signature sqrt hypot atan2 pi X Y P).isSome = true) := by
  constructor
  · intro sqrt x y xb yb xmn xmx ymn ymx sx sy rel hx hy hlen
    rw [hist2d, if_neg (by push_neg; exact ⟨hx, hy⟩), if_pos hlen]
  · intro sqrt hypot atan2 pi hsqrt hpi X Y P
    obtain ⟨fv, hfv, -⟩ := process_signature_some sqrt hypot atan2 pi hsqrt hpi X Y P
    rw [hfv]
    rfl

/-- Witness for C10: a concrete mismatched `_hist_2d` call errors, while the
pipeline on a concrete stroke succeeds. -/
theorem C10_witness :
    hist2d (fun q : ℚ => |q|) [1] [1, 2] 2 2 0 1 0 1 0 0 true = none
    ∧ (process_signature (fun q : ℚ => |q|) (fun a b => a + b) (fun a b => a - b) 3
        [1, 2] [3, 4] [5, 6]).isSome = true :=
  ⟨C10_hist2d_mismatch_unreachable.1 (fun q : ℚ => |q|) [1] [1, 2] 2 2 0 1 0 1 0 0
      true (by simp) (by simp) (by simp),
   C10_hist2d_mismatch_unreachable.2 (fun q : ℚ => |q|) (fun a b => a + b)
      (fun a b => a - b) 3 (fun a => abs_nonneg a) (by norm_num) [1, 2] [3, 4] [5, 6]⟩

end SigVerify

namespace SigVerify

/-- `math.hypot(x, y)` over the idealized reals: `sqrt(x² + y²)`. -/
noncomputable def mathHypot (x y : ℝ) : ℝ := Real.sqrt (x ^ 2 + y ^ 2)

/-- `math.atan2(y, x)` over the idealized reals: the four-quadrant arctangent,
the argument of the complex number `x + i y`, with range `(-π, π]` and
`atan2(0, 0) = 0` — exactly `Complex.arg`. -/
noncomputable def mathAtan2 (y x : ℝ) : ℝ := Complex.arg ⟨x, y⟩

/-- Claim C9: `compute_polar_coords` (instantiated with the real math
library) returns radius and angle sequences of length
`min (len dx) (len dy)` — unequal lengths are silently truncated, never an
error — with `radius[i] = hypot(dx[i], dy[i]) = sqrt(dx[i]² + dy[i]²)` and
`angle[i] = atan2(dy[i], dx[i])` lying in `(-π, π]`. -/
theorem C9_compute_polar_coords (dx dy : List ℝ) :
    (FeatureExtractor.compute_polar_coords mathHypot mathAtan2 dx dy).1.length =
      min dx.length dy.length
    ∧ (FeatureExtractor.compute_polar_coords mathHypot mathAtan2 dx dy).2.length =
      min dx.length dy.length
    ∧ (FeatureExtractor.compute_polar_coords mathHypot mathAtan2 dx dy).1 =
      (dx.zip dy).map (fun p => Real.sqrt (p.1 ^ 2 + p.2 ^ 2))
    ∧ (FeatureExtractor.compute_polar_coords mathHypot mathAtan2 dx dy).2 =
      (dx.zip dy).map (fun p => Complex.arg ⟨p.1, p.2⟩)
    ∧ ∀ a ∈ (FeatureExtractor.compute_polar_coords mathHypot mathAtan2 dx dy).2,
        -Real.pi < a ∧ a ≤ Real.pi := by
  refine ⟨?_, ?_, rfl, rfl, ?_⟩
  · simp [FeatureExtractor.compute_polar_coords]
  · simp [FeatureExtractor.compute_polar_coords]
  · intro a ha
    simp only [FeatureExtractor.compute_polar_coords, List.mem_map] at ha
    obtain ⟨p, -, rfl⟩ := ha
    exact ⟨Complex.neg_pi_lt_arg _, Complex.arg_le_pi _⟩

/-- Witness for C9: the angle of the pair `dx = [1]`, `dy = [0]` lies in
`(-π, π]`. -/
theorem C9_witness : -Real.pi < mathAtan2 0 1 ∧ mathAtan2 0 1 ≤ Real.pi := by
  have h := (C9_compute_polar_coords [1] [0]).2.2.2.2
  exact h (mathAtan2 0 1) (by simp [FeatureExtractor.compute_polar_coords])

end SigVerify
